import Mathlib

/-!
Verification of the candy-route application's route sequencer and balance
ledger (src/app.py) against its specification.

The persisted data model (SQLAlchemy models `Customer`, `RouteStop`,
`Payment`) is embedded as Lean structures, the database session as an
explicit `AppState` record, and each Flask handler of the core slice as a
state-passing function.  Modelling conventions:

* Currency values (`db.Float` columns, Python `float` arithmetic) are
  modelled by exact rationals `ℚ`; the operations used by the code are
  `+`, `-`, `max`, and order comparisons only.
* Calendar dates (`db.Date`) are abstract day numbers `Nat`; the
  `strftime("%Y%m%d")` rendering of a day used in receipt numbers is
  modelled by `toString` (an injective rendering followed by a `-`
  delimiter, exactly as in the `RCP-<day>-<seq>` format).
* Row ids (autoincrement primary keys) are `Nat`, allocated from the
  `nextStopId` / `nextPaymentId` counters of the state.
* A handler that answers an HTTP error before touching the session is
  modelled as returning `Except Err _` with the state unchanged; `Err`
  mirrors the spec's error taxonomy (`NotFound` for `get_or_404`,
  `InvalidInput` for validation failures, `Internal` for the generic 500
  handler).  Form-value parsing (`float(...)`, `strptime`) happens before
  any mutation in every handler and is kept outside the model: operations
  receive already-parsed values.
-/

namespace Candy

/-- Error taxonomy of the spec: `get_or_404` lookups, input validation,
and internal (500) failures. -/
inductive Err where
  | notFound
  | invalidInput
  | internal
deriving DecidableEq

/-- The `Customer` model of src/app.py lines 75-85. -/
structure Customer where
  id : Nat
  name : String
  city : Option String := none
  address : Option String := none
  phone : Option String := none
  notes : Option String := none
  balance : ℚ := 0
  last_visit : Option Nat := none
  created_at : Nat := 0
  status : String := "active"
deriving DecidableEq

/-- The `RouteStop` model of src/app.py lines 88-95.  The nullable
`sequence` column is modelled as a plain `Int` since every writer of the
column in the application supplies a value. -/
structure RouteStop where
  id : Nat
  customer_id : Nat
  route_date : Nat
  sequence : Int := 0
  completed : Bool := false
  notes : Option String := none
deriving DecidableEq

/-- The `Payment` model of src/app.py lines 98-107. -/
structure Payment where
  id : Nat
  customer_id : Nat
  amount : ℚ
  payment_date : Nat
  acknowledged : Bool := false
  notes : Option String := none
  receipt_number : Option String := none
  previous_balance : Option ℚ := none
deriving DecidableEq

/-- The persisted database state: the three tables (rows listed in
insertion order, which is the order unqualified queries return) plus the
autoincrement id counters. -/
structure AppState where
  customers : List Customer := []
  stops : List RouteStop := []
  payments : List Payment := []
  nextStopId : Nat := 1
  nextPaymentId : Nat := 1
deriving DecidableEq

/-- `Customer.query.get(cid)`: primary-key lookup. -/
def findCustomer (st : AppState) (cid : Nat) : Option Customer :=
  st.customers.find? (fun c => c.id == cid)

/-- `Payment.query.get(pid)`: primary-key lookup. -/
def findPayment (st : AppState) (pid : Nat) : Option Payment :=
  st.payments.find? (fun p => p.id == pid)

/-- `RouteStop.query.get(sid)`: primary-key lookup. -/
def findStop (st : AppState) (sid : Nat) : Option RouteStop :=
  st.stops.find? (fun s => s.id == sid)

/-- Mutating the customer row with primary key `cid` in place. -/
def updateCustomer (st : AppState) (cid : Nat) (f : Customer → Customer) : AppState :=
  { st with customers := st.customers.map (fun c => if c.id = cid then f c else c) }

/-- The `strftime("%Y%m%d")` rendering of an (abstract) day. -/
def dayStr (d : Nat) : String := toString d

/-- The fixed receipt prefix `RCP-<YYYYMMDD>-` for a given day
(src/app.py line 1008). -/
def receiptPrefixStr (today : Nat) : String := "RCP-" ++ dayStr today ++ "-"

/-- Python `f"{n:04d}"`: decimal rendering zero-padded on the left to at
least four digits (src/app.py line 1010). -/
def pad4 (n : Nat) : String := ⟨List.replicate (4 - (toString n).length) '0'⟩ ++ toString n

/-- The receipt number `RCP-<YYYYMMDD>-<seq>` (src/app.py line 1010). -/
def mkReceipt (today : Nat) (n : Nat) : String := receiptPrefixStr today ++ pad4 n

/-- SQL `LIKE 'p%'`: `p` is a literal prefix of `s`. -/
def likePrefix (p s : String) : Bool := p.data.isPrefixOf s.data

/-- Whether a payment row matches `Payment.receipt_number.like("RCP-<today>-%")`
(src/app.py lines 1007-1009); rows with a NULL receipt number never match. -/
def matchesDay (today : Nat) (p : Payment) : Bool :=
  match p.receipt_number with
  | some r => likePrefix (receiptPrefixStr today) r
  | none => false

/-- The `today_count` query of src/app.py lines 1007-1009: the number of
payments whose receipt number carries today's prefix. -/
def countToday (st : AppState) (today : Nat) : Nat :=
  (st.payments.filter (matchesDay today)).length

/-- Handler `record_payment` (src/app.py lines 978-1034, the balances
page): look the customer up, reject non-positive amounts, snapshot the
previous balance, allocate the receipt number `RCP-<today>-<count+1>`
zero-padded to four digits, store the payment and clamp the new balance
at zero.  Returns the new state together with the created payment row. -/
def record_payment (st : AppState) (today : Nat) (cid : Nat) (amount : ℚ)
    (payment_date : Nat) (notes : Option String) : Except Err (AppState × Payment) :=
  match findCustomer st cid with
  | none => .error .notFound
  | some customer =>
    if amount ≤ 0 then .error .invalidInput
    else
      let previous_balance := customer.balance
      let today_count := countToday st today
      let receipt_number := mkReceipt today (today_count + 1)
      let new_payment : Payment :=
        { id := st.nextPaymentId
          customer_id := customer.id
          amount := amount
          payment_date := payment_date
          notes := notes
          receipt_number := some receipt_number
          previous_balance := some previous_balance }
      let st' := updateCustomer st cid (fun c => { c with balance := max 0 (c.balance - amount) })
      .ok ({ st' with
              payments := st'.payments ++ [new_payment]
              nextPaymentId := st.nextPaymentId + 1 }, new_payment)

/-- Handler `customer_add_payment` (src/app.py lines 719-751, the
customer page): look the customer up, store a payment carrying the
previous-balance snapshot and NO receipt number, and clamp the new
balance at zero.  The handler performs no validation of the amount. -/
def customer_add_payment (st : AppState) (cid : Nat) (amount : ℚ)
    (payment_date : Nat) (notes : Option String) : Except Err (AppState × Payment) :=
  match findCustomer st cid with
  | none => .error .notFound
  | some customer =>
    let payment : Payment :=
      { id := st.nextPaymentId
        customer_id := customer.id
        amount := amount
        payment_date := payment_date
        notes := notes
        previous_balance := some customer.balance }
    let st' := updateCustomer st cid (fun c => { c with balance := max 0 (c.balance - amount) })
    .ok ({ st' with
            payments := st'.payments ++ [payment]
            nextPaymentId := st.nextPaymentId + 1 }, payment)

/-- Handler `customer_delete_payment` (src/app.py lines 754-774): both
rows must exist, the payment must belong to the customer (otherwise the
handler flashes "Invalid payment" and changes nothing), then the balance
is restored additively and the payment row deleted. -/
def customer_delete_payment (st : AppState) (cid : Nat) (pid : Nat) : Except Err AppState :=
  match findCustomer st cid with
  | none => .error .notFound
  | some _ =>
    match findPayment st pid with
    | none => .error .notFound
    | some payment =>
      if payment.customer_id ≠ cid then .error .invalidInput
      else
        let st' := updateCustomer st cid (fun c => { c with balance := c.balance + payment.amount })
        .ok { st' with payments := st'.payments.eraseP (fun p => p.id == pid) }

/-- Python `form.get("name") or customer.name`: a missing or empty string
keeps the old value. -/
def pyOrKeep (v : Option String) (old : String) : String :=
  match v with
  | some s => if s = "" then old else s
  | none => old

/-- Python `form.get(...) or None`: a missing or empty string becomes NULL. -/
def pyOrNone (v : Option String) : Option String :=
  match v with
  | some s => if s = "" then none else some s
  | none => none

/-- Handler `customer_update` (src/app.py lines 654-679): overwrite the
text fields with Python `or` semantics; if a balance value was submitted
(a non-empty, parseable string, received here already parsed) reject it
when negative, otherwise store it. -/
def customer_update (st : AppState) (cid : Nat)
    (name? phone? address? city? notes? : Option String)
    (balance? : Option ℚ) : Except Err AppState :=
  match findCustomer st cid with
  | none => .error .notFound
  | some _ =>
    let stf := updateCustomer st cid (fun c =>
      { c with
        name := pyOrKeep name? c.name
        phone := pyOrNone phone?
        address := pyOrNone address?
        city := pyOrNone city?
        notes := pyOrNone notes? })
    match balance? with
    | some b =>
      if b < 0 then .error .invalidInput
      else .ok (updateCustomer stf cid (fun c => { c with balance := b }))
    | none => .ok stf

/-- The stops of one route date, in stored row order (the order an
unordered `filter_by(route_date=...)` query returns). -/
def stopsOfDate (st : AppState) (d : Nat) : List RouteStop :=
  st.stops.filter (fun s => s.route_date == d)

/-- An explicit pure list maximum, `none` on the empty list: the SQL
`MAX(sequence)` aggregate of src/app.py lines 1171-1176. -/
def listMax? : List Int → Option Int
  | [] => none
  | a :: l =>
    match listMax? l with
    | none => some a
    | some m => some (max a m)

/-- The Python `scalar() or 0` of src/app.py lines 1171-1176: `None`
becomes 0 (and a stored 0 stays 0, which `or` also yields). -/
def maxSeqPy (st : AppState) (d : Nat) : Int :=
  (listMax? ((stopsOfDate st d).map (fun s => s.sequence))).getD 0

/-- Handler `add_stop_to_route` (src/app.py lines 1156-1200): look the
customer up, take the maximal existing sequence of the date (0 when the
date has no stops), and append a fresh uncompleted stop with the next
sequence number. -/
def add_stop_to_route (st : AppState) (cid : Nat) (route_date : Nat) :
    Except Err (AppState × RouteStop) :=
  match findCustomer st cid with
  | none => .error .notFound
  | some customer =>
    let max_seq := maxSeqPy st route_date
    let new_stop : RouteStop :=
      { id := st.nextStopId
        customer_id := customer.id
        route_date := route_date
        sequence := max_seq + 1
        completed := false }
    .ok ({ st with
            stops := st.stops ++ [new_stop]
            nextStopId := st.nextStopId + 1 }, new_stop)

/-- Handler `remove_stop_from_route` (src/app.py lines 1203-1212):
unconditional delete of the stop row, no renumbering. -/
def remove_stop_from_route (st : AppState) (sid : Nat) : Except Err AppState :=
  match findStop st sid with
  | none => .error .notFound
  | some _ => .ok { st with stops := st.stops.eraseP (fun s => s.id == sid) }

/-- Handler `clear_route` (src/app.py lines 1215-1227): delete every stop
of the date. -/
def clear_route (st : AppState) (d : Nat) : AppState :=
  { st with stops := st.stops.filter (fun s => decide (s.route_date ≠ d)) }

/-- Handler `complete_stop` (src/app.py lines 492-500): mark the stop
completed and stamp the owning customer's `last_visit` with today's date.
A stop whose customer row is missing would crash the handler
(`stop.customer` is `None`), modelled as an internal error. -/
def complete_stop (st : AppState) (sid : Nat) (today : Nat) : Except Err AppState :=
  match findStop st sid with
  | none => .error .notFound
  | some stop =>
    match findCustomer st stop.customer_id with
    | none => .error .internal
    | some _ =>
      let st' := { st with
        stops := st.stops.map (fun s => if s.id = sid then { s with completed := true } else s) }
      .ok (updateCustomer st' stop.customer_id (fun c => { c with last_visit := some today }))

/-- Handler `uncomplete_stop` (src/app.py lines 503-509): mark the stop
not completed; the customer row is untouched. -/
def uncomplete_stop (st : AppState) (sid : Nat) : Except Err AppState :=
  match findStop st sid with
  | none => .error .notFound
  | some _ =>
    .ok { st with
      stops := st.stops.map (fun s => if s.id = sid then { s with completed := false } else s) }

/-- Overwrite a stop's sequence number. -/
def setSeq (s : RouteStop) (n : Int) : RouteStop := { s with sequence := n }

/-- A stop with its sequence field blanked; two stops are `stripSeq`-equal
exactly when they differ at most in their sequence number. -/
def stripSeq (s : RouteStop) : RouteStop := setSeq s 0

/-- The `stop.customer` relationship lookup. -/
def custOf (cs : List Customer) (s : RouteStop) : Option Customer :=
  cs.find? (fun c => c.id == s.customer_id)

/-- Python `stop.customer.city or "Unknown"` (src/app.py line 1348): a
NULL or empty city falls back to the bucket "Unknown". -/
def cityOfStop (cs : List Customer) (s : RouteStop) : String :=
  match custOf cs s with
  | some c =>
    match c.city with
    | some ci => if ci = "" then "Unknown" else ci
    | none => "Unknown"
  | none => "Unknown"

/-- Python `stop.customer.name`, the within-city sort key of src/app.py
line 1361. -/
def nameOfStop (cs : List Customer) (s : RouteStop) : String :=
  match custOf cs s with
  | some c => c.name
  | none => ""

/-- Append a stop to the bucket of its city, creating the bucket at the
end on first sight: one step of building the insertion-ordered
`city_groups` dict of src/app.py lines 1346-1351. -/
def addToGroups (gs : List (String × List RouteStop)) (k : String) (s : RouteStop) :
    List (String × List RouteStop) :=
  match gs with
  | [] => [(k, [s])]
  | (k', b) :: rest =>
    if k' = k then (k', b ++ [s]) :: rest else (k', b) :: addToGroups rest k s

/-- The `city_groups` dict of src/app.py lines 1346-1351, as an
association list in key insertion order (Python dicts iterate in
insertion order). -/
def groupStops (cs : List Customer) (l : List RouteStop) : List (String × List RouteStop) :=
  l.foldl (fun gs s => addToGroups gs (cityOfStop cs s) s) []

/-- The descending-size ordering on city groups used by
`sorted(city_groups.items(), key=lambda x: len(x[1]), reverse=True)`
(src/app.py lines 1354-1356).  Python's sort is stable and so is
`List.insertionSort`, so sorting with this total preorder reproduces it. -/
def sizeGE (p q : String × List RouteStop) : Prop := q.2.length ≤ p.2.length

instance : DecidableRel sizeGE := fun p q => Nat.decLe q.2.length p.2.length

instance : IsTotal (String × List RouteStop) sizeGE :=
  ⟨fun p q => (Nat.le_total q.2.length p.2.length).elim Or.inl Or.inr⟩

instance : IsTrans (String × List RouteStop) sizeGE :=
  ⟨fun _ _ _ h1 h2 => Nat.le_trans h2 h1⟩

/-- The ascending customer-name ordering used inside each city group by
`sorted(city_stops, key=lambda s: s.customer.name)` (src/app.py line 1361). -/
def nameLE (cs : List Customer) (s t : RouteStop) : Prop :=
  nameOfStop cs s ≤ nameOfStop cs t

instance (cs : List Customer) : DecidableRel (nameLE cs) :=
  fun s t => inferInstanceAs (Decidable (nameOfStop cs s ≤ nameOfStop cs t))

instance (cs : List Customer) : IsTotal RouteStop (nameLE cs) :=
  ⟨fun s t => le_total (nameOfStop cs s) (nameOfStop cs t)⟩

instance (cs : List Customer) : IsTrans RouteStop (nameLE cs) :=
  ⟨fun _ _ _ h1 h2 => le_trans h1 h2⟩

/-- The sequence reassignment `for idx, stop in enumerate(optimized_stops,
start=1): stop.sequence = idx` (src/app.py lines 1365-1366), generalized
to an arbitrary first index. -/
def assignSeqFrom (k : Nat) : List RouteStop → List RouteStop
  | [] => []
  | s :: l => setSeq s (k : Int) :: assignSeqFrom (k + 1) l

/-- The core of handler `optimize_route` (src/app.py lines 1327-1391) on
the fetched stop list of one date: with at most one stop nothing happens;
otherwise group by city in first-seen order, stably sort the groups by
descending size, stably sort each group by customer name, concatenate and
renumber the sequences 1..N.  The handler then reloads the date's stops
ordered by sequence, i.e. returns exactly this list. -/
def optimizeStops (cs : List Customer) (l : List RouteStop) : List RouteStop :=
  if l.length ≤ 1 then l
  else
    let sortedG := List.insertionSort sizeGE (groupStops cs l)
    let optimized := (sortedG.map (fun p => List.insertionSort (nameLE cs) p.2)).flatten
    assignSeqFrom 1 optimized

/-- The in-place sequence write-back of `optimize_route`: a stored row of
the optimized date receives the sequence number its optimized copy got
(the fetched ORM objects mutated at src/app.py lines 1365-1366 are
exactly the rows of that date); every other row is untouched. -/
def writeBackSeq (d : Nat) (opt : List RouteStop) (s : RouteStop) : RouteStop :=
  if s.route_date = d then
    match opt.find? (fun t => t.id == s.id) with
    | some t => { s with sequence := t.sequence }
    | none => s
  else s

/-- Handler `optimize_route` at the state level: compute the optimized
order of the date's stops and write the new sequence numbers back into
the stored rows (Python mutates the fetched ORM objects in place, so row
order in the table is unchanged and only `sequence` fields move). -/
def optimizeRoute (st : AppState) (d : Nat) : AppState :=
  let l := stopsOfDate st d
  if l.length ≤ 1 then st
  else
    { st with stops := st.stops.map (writeBackSeq d (optimizeStops st.customers l)) }

/-- One request against the core slice: every operation named by the spec
(both payment-recording entry points, payment deletion, the customer
update form, and all sequencer operations). -/
inductive Op where
  | recordPay (today cid : Nat) (amount : ℚ) (pdate : Nat) (notes : Option String)
  | addPay (cid : Nat) (amount : ℚ) (pdate : Nat) (notes : Option String)
  | delPay (cid pid : Nat)
  | updateCust (cid : Nat) (name? phone? address? city? notes? : Option String) (balance? : Option ℚ)
  | addStop (cid d : Nat)
  | rmStop (sid : Nat)
  | clearDate (d : Nat)
  | complete (sid today : Nat)
  | uncomplete (sid : Nat)
  | optimize (d : Nat)

/-- Serve one request: a handler that answers an error leaves the stored
state unchanged (every error return in the slice happens before any
mutation is committed). -/
def applyOp (st : AppState) : Op → AppState
  | .recordPay today cid a pd n =>
    match record_payment st today cid a pd n with
    | .ok (st', _) => st'
    | .error _ => st
  | .addPay cid a pd n =>
    match customer_add_payment st cid a pd n with
    | .ok (st', _) => st'
    | .error _ => st
  | .delPay cid pid =>
    match customer_delete_payment st cid pid with
    | .ok st' => st'
    | .error _ => st
  | .updateCust cid n p a c no b =>
    match customer_update st cid n p a c no b with
    | .ok st' => st'
    | .error _ => st
  | .addStop cid d =>
    match add_stop_to_route st cid d with
    | .ok (st', _) => st'
    | .error _ => st
  | .rmStop sid =>
    match remove_stop_from_route st sid with
    | .ok st' => st'
    | .error _ => st
  | .clearDate d => clear_route st d
  | .complete sid today =>
    match complete_stop st sid today with
    | .ok st' => st'
    | .error _ => st
  | .uncomplete sid =>
    match uncomplete_stop st sid with
    | .ok st' => st'
    | .error _ => st
  | .optimize d => optimizeRoute st d

/-- Serve a sequence of requests in order. -/
def applyOps (st : AppState) (ops : List Op) : AppState :=
  ops.foldl applyOp st

/-- The balance invariant of the spec: every stored customer balance is
nonnegative. -/
def BalancesNonneg (st : AppState) : Prop := ∀ c ∈ st.customers, 0 ≤ c.balance

/-- Auxiliary invariant: every stored payment amount is nonnegative (the
validated entry point even guarantees positivity). -/
def PaymentsNonneg (st : AppState) : Prop := ∀ p ∈ st.payments, 0 ≤ p.amount

/-- The restriction the balance invariant needs: the unvalidated
customer-page entry point is only called with nonnegative amounts.  Every
other operation is unrestricted. -/
def OpNonneg : Op → Prop
  | .addPay _ a _ _ => 0 ≤ a
  | _ => True

/-- One record-payment form submission from the balances page. -/
structure RecCall where
  cid : Nat
  amount : ℚ
  pdate : Nat
  notes : Option String

/-- Serve a sequence of `record_payment` requests on one calendar day,
collecting the payment rows the successful ones create (failed requests
change nothing and create nothing). -/
def runRecords (today : Nat) : AppState → List RecCall → AppState × List Payment
  | st, [] => (st, [])
  | st, c :: rest =>
    match record_payment st today c.cid c.amount c.pdate c.notes with
    | .ok (st', pay) =>
      let r := runRecords today st' rest
      (r.1, pay :: r.2)
    | .error _ => runRecords today st rest

/-! ### Shared lemmas about lookups and updates -/

/-- Updating the rows whose key matches `i` by a key-preserving function
commutes with the key lookup. -/
theorem find?_update_id {α : Type} (idOf : α → Nat) (l : List α) (i : Nat) (f : α → α)
    (hf : ∀ a, idOf (f a) = idOf a) (a : α)
    (ha : l.find? (fun x => idOf x == i) = some a) :
    (l.map (fun x => if idOf x = i then f x else x)).find? (fun x => idOf x == i) =
      some (f a) := by
  rw [List.find?_map]
  have hpred : ((fun x => idOf x == i) ∘ (fun x => if idOf x = i then f x else x)) =
      (fun x => idOf x == i) := by
    funext x
    by_cases hx : idOf x = i
    · simp [hx, hf]
    · simp [hx]
  rw [hpred, ha]
  have hai : idOf a = i := by simpa using List.find?_some ha
  simp [hai]

/-- Looking the customer up again after an id-preserving in-place update. -/
theorem findCustomer_updateCustomer (st : AppState) (cid : Nat) (f : Customer → Customer)
    (hf : ∀ c, (f c).id = c.id) (c : Customer) (hc : findCustomer st cid = some c) :
    findCustomer (updateCustomer st cid f) cid = some (f c) :=
  find?_update_id Customer.id st.customers cid f hf c hc

/-- Success shape of `record_payment` on an existing customer and a
positive amount: the exact state and payment row it produces. -/
theorem record_payment_pos_eq (st : AppState) (today cid : Nat) (amount : ℚ)
    (pd : Nat) (n : Option String) (c : Customer)
    (hc : findCustomer st cid = some c) (ha : 0 < amount) :
    record_payment st today cid amount pd n =
      .ok ({ updateCustomer st cid (fun x => { x with balance := max 0 (x.balance - amount) }) with
              payments := st.payments ++
                [{ id := st.nextPaymentId, customer_id := c.id, amount := amount,
                   payment_date := pd, notes := n,
                   receipt_number := some (mkReceipt today (countToday st today + 1)),
                   previous_balance := some c.balance }]
              nextPaymentId := st.nextPaymentId + 1 },
            { id := st.nextPaymentId, customer_id := c.id, amount := amount,
              payment_date := pd, notes := n,
              receipt_number := some (mkReceipt today (countToday st today + 1)),
              previous_balance := some c.balance }) := by
  unfold record_payment
  rw [hc]
  dsimp only
  rw [if_neg (not_le.mpr ha)]
  rfl

/-- Failure shape of `record_payment` on a non-positive amount. -/
theorem record_payment_nonpos_eq (st : AppState) (today cid : Nat) (amount : ℚ)
    (pd : Nat) (n : Option String) (c : Customer)
    (hc : findCustomer st cid = some c) (ha : amount ≤ 0) :
    record_payment st today cid amount pd n = .error .invalidInput := by
  unfold record_payment
  rw [hc]
  dsimp only
  rw [if_pos ha]

/-- Success shape of `customer_add_payment` on an existing customer: no
validation, so it succeeds for every amount. -/
theorem customer_add_payment_eq (st : AppState) (cid : Nat) (amount : ℚ)
    (pd : Nat) (n : Option String) (c : Customer)
    (hc : findCustomer st cid = some c) :
    customer_add_payment st cid amount pd n =
      .ok ({ updateCustomer st cid (fun x => { x with balance := max 0 (x.balance - amount) }) with
              payments := st.payments ++
                [{ id := st.nextPaymentId, customer_id := c.id, amount := amount,
                   payment_date := pd, notes := n,
                   previous_balance := some c.balance }]
              nextPaymentId := st.nextPaymentId + 1 },
            { id := st.nextPaymentId, customer_id := c.id, amount := amount,
              payment_date := pd, notes := n,
              previous_balance := some c.balance }) := by
  unfold customer_add_payment
  rw [hc]
  dsimp only
  rfl

/-- Success shape of `customer_delete_payment` when the payment belongs
to the customer. -/
theorem customer_delete_payment_eq (st : AppState) (cid pid : Nat) (c : Customer) (p : Payment)
    (hc : findCustomer st cid = some c) (hp : findPayment st pid = some p)
    (hb : p.customer_id = cid) :
    customer_delete_payment st cid pid =
      .ok { updateCustomer st cid (fun x => { x with balance := x.balance + p.amount }) with
             payments := st.payments.eraseP (fun q => q.id == pid) } := by
  unfold customer_delete_payment
  rw [hc, hp]
  dsimp only
  rw [if_neg (by simp [hb])]
  rfl

/-! ### C1: record-payment stores the previous balance and clamps the new one -/

/-- C1.  Every `record_payment` call on an existing customer `c` with a
positive amount `a` succeeds and stores `previous_balance = c.balance` on
the created payment row while setting the customer's balance to
`max 0 (c.balance - a)`.  The state `st` is universally quantified, so
the property holds at every point of every sequence of record-payment
calls. -/
theorem record_payment_balance_spec (st : AppState) (today cid : Nat) (amount : ℚ)
    (pd : Nat) (n : Option String) (c : Customer)
    (hc : findCustomer st cid = some c) (ha : 0 < amount) :
    ∃ st' pay, record_payment st today cid amount pd n = .ok (st', pay) ∧
      pay.previous_balance = some c.balance ∧
      pay.amount = amount ∧
      pay ∈ st'.payments ∧
      findCustomer st' cid = some { c with balance := max 0 (c.balance - amount) } := by
  refine ⟨_, _, record_payment_pos_eq st today cid amount pd n c hc ha, rfl, rfl, ?_, ?_⟩
  · simp
  · exact findCustomer_updateCustomer st cid
      (fun x => { x with balance := max 0 (x.balance - amount) }) (fun _ => rfl) c hc

def stW1 : AppState := { customers := [{ id := 1, name := "ABC Convenience", balance := 100 }] }

/-- Witness for C1: the spec §8 scenario (balance 100, payment 30). -/
theorem record_payment_balance_spec_witness :
    ∃ st' pay, record_payment stW1 7 1 30 7 none = .ok (st', pay) ∧
      pay.previous_balance = some ((100 : ℚ)) ∧
      pay.amount = 30 ∧
      pay ∈ st'.payments ∧
      findCustomer st' 1 =
        some { id := 1, name := "ABC Convenience", balance := max 0 (100 - 30) } :=
  record_payment_balance_spec stW1 7 1 30 7 none
    { id := 1, name := "ABC Convenience", balance := 100 } rfl (by norm_num)

/-! ### C3: delete-payment validation, reversal and frame -/

/-- C3.  For a delete-payment call on an existing customer and an
existing payment row: if the payment does not belong to the customer the
call fails with `InvalidInput` (and, the handler having mutated nothing,
the caller's state is unchanged); if it does belong, the new state is the
old one with exactly the customer's balance increased by the payment's
amount and the payment row erased — all other customers, all customer
fields other than the balance, all other payments, all stops and both id
counters are untouched. -/
theorem delete_payment_spec (st : AppState) (cid pid : Nat) (c : Customer) (p : Payment)
    (hc : findCustomer st cid = some c) (hp : findPayment st pid = some p) :
    (p.customer_id ≠ cid → customer_delete_payment st cid pid = .error .invalidInput) ∧
    (p.customer_id = cid → customer_delete_payment st cid pid =
      .ok { st with
             customers := st.customers.map
               (fun x => if x.id = cid then { x with balance := x.balance + p.amount } else x)
             payments := st.payments.eraseP (fun q => q.id == pid) }) := by
  constructor
  · intro hne
    unfold customer_delete_payment
    rw [hc, hp]
    dsimp only
    rw [if_pos hne]
  · intro heq
    exact customer_delete_payment_eq st cid pid c p hc hp heq

def stW3 : AppState :=
  { customers := [{ id := 1, name := "A", balance := 70 }, { id := 2, name := "B", balance := 5 }]
    payments := [{ id := 1, customer_id := 1, amount := 200, payment_date := 0 }]
    nextPaymentId := 2 }

/-- Witness for C3, covering both branches: deleting customer 1's payment
through customer 2 fails with `InvalidInput`; deleting it through
customer 1 restores the balance additively and erases the row. -/
theorem delete_payment_spec_witness :
    customer_delete_payment stW3 2 1 = .error .invalidInput ∧
    customer_delete_payment stW3 1 1 =
      .ok { stW3 with
             customers := stW3.customers.map
               (fun x => if x.id = 1 then { x with balance := x.balance + (200 : ℚ) } else x)
             payments := stW3.payments.eraseP (fun q => q.id == 1) } := by
  constructor
  · exact (delete_payment_spec stW3 2 1 { id := 2, name := "B", balance := 5 }
      { id := 1, customer_id := 1, amount := 200, payment_date := 0 } rfl rfl).1 (by decide)
  · exact (delete_payment_spec stW3 1 1 { id := 1, name := "A", balance := 70 }
      { id := 1, customer_id := 1, amount := 200, payment_date := 0 } rfl rfl).2 rfl

/-! ### C4: amount validation exists on one entry point only -/

def stX4 : AppState := { customers := [{ id := 1, name := "A", balance := 10 }] }

/-- Counterexample to C4 as stated.  The claim says a payment-recording
call with `amount ≤ 0` fails with `InvalidInput` and mutates nothing on
EITHER entry point; but the customer-page entry point
`customer_add_payment` (src/app.py lines 719-751) has no amount check at
all: called with amount `-5` on a customer with balance 10 it succeeds,
stores a payment row, and changes the balance to `max 0 (10 - (-5)) = 15`. -/
theorem customer_add_payment_counterexample :
    (customer_add_payment stX4 1 (-5) 0 none).toOption.map
        (fun pr => pr.1.payments.length) = some 1 ∧
    (customer_add_payment stX4 1 (-5) 0 none).toOption.map
        (fun pr => (findCustomer pr.1 1).map (fun c => c.balance)) =
      some (some (max 0 (10 - (-5)))) ∧
    max 0 (10 - (-5) : ℚ) = 15 := by
  exact ⟨rfl, rfl, by norm_num⟩

/-- C4 (amended).  Only the balances-page `record_payment` validates the
amount: with `amount ≤ 0` it fails with `InvalidInput` before any
mutation.  The customer-page `customer_add_payment` performs no amount
validation: on an existing customer it succeeds for every amount,
including non-positive ones, storing the payment row and setting the
balance to `max 0 (balance - amount)`. -/
theorem record_payment_validation_spec (st : AppState) (today cid : Nat) (amount : ℚ)
    (pd : Nat) (n : Option String) (c : Customer) (hc : findCustomer st cid = some c) :
    (amount ≤ 0 → record_payment st today cid amount pd n = .error .invalidInput) ∧
    (∃ st' pay, customer_add_payment st cid amount pd n = .ok (st', pay) ∧
      pay.amount = amount ∧
      pay ∈ st'.payments ∧
      findCustomer st' cid = some { c with balance := max 0 (c.balance - amount) }) := by
  constructor
  · intro ha
    exact record_payment_nonpos_eq st today cid amount pd n c hc ha
  · refine ⟨_, _, customer_add_payment_eq st cid amount pd n c hc, rfl, ?_, ?_⟩
    · simp
    · exact findCustomer_updateCustomer st cid
        (fun x => { x with balance := max 0 (x.balance - amount) }) (fun _ => rfl) c hc

/-- Witness for the amended C4 at amount 0 on customer 1 of `stX4`. -/
theorem record_payment_validation_spec_witness :
    (record_payment stX4 9 1 0 0 none = .error .invalidInput) ∧
    (∃ st' pay, customer_add_payment stX4 1 0 0 none = .ok (st', pay) ∧
      pay.amount = 0 ∧
      pay ∈ st'.payments ∧
      findCustomer st' 1 = some { id := 1, name := "A", balance := max 0 (10 - 0) }) := by
  have h := record_payment_validation_spec stX4 9 1 0 0 none
    { id := 1, name := "A", balance := 10 } rfl
  exact ⟨h.1 le_rfl, h.2⟩

/-! ### C10: the customer-page entry point never allocates a receipt -/

/-- C10.  Every payment created through `customer_add_payment` carries
`receipt_number = none`, and the daily receipt count of every day is
unchanged by the call, so such payments neither carry nor consume a
daily receipt-number suffix. -/
theorem customer_add_payment_no_receipt (st : AppState) (cid : Nat) (amount : ℚ)
    (pd : Nat) (n : Option String) (c : Customer) (hc : findCustomer st cid = some c) :
    ∃ st' pay, customer_add_payment st cid amount pd n = .ok (st', pay) ∧
      pay.receipt_number = none ∧
      pay ∈ st'.payments ∧
      ∀ d, countToday st' d = countToday st d := by
  refine ⟨_, _, customer_add_payment_eq st cid amount pd n c hc, rfl, ?_, ?_⟩
  · simp
  · intro d
    show ((st.payments ++ [_]).filter (matchesDay d)).length = _
    rw [List.filter_append]
    simp [matchesDay, countToday]

/-- Witness for C10 on customer 1 of `stX4` with amount 4. -/
theorem customer_add_payment_no_receipt_witness :
    ∃ st' pay, customer_add_payment stX4 1 4 0 none = .ok (st', pay) ∧
      pay.receipt_number = none ∧
      pay ∈ st'.payments ∧
      ∀ d, countToday st' d = countToday stX4 d :=
  customer_add_payment_no_receipt stX4 1 4 0 none
    { id := 1, name := "A", balance := 10 } rfl

/-! ### C8: append-stop sequence allocation -/

/-- Every member of a list is bounded by its `listMax?`. -/
theorem le_listMax? (l : List Int) (x : Int) (hx : x ∈ l) :
    ∃ m, listMax? l = some m ∧ x ≤ m := by
  induction l with
  | nil => cases hx
  | cons a t ih =>
    rcases List.mem_cons.mp hx with h | h
    · subst h
      cases ht : listMax? t with
      | none => exact ⟨x, by simp [listMax?, ht], le_refl x⟩
      | some m => exact ⟨max x m, by simp [listMax?, ht], le_max_left x m⟩
    · obtain ⟨m, hm, hxm⟩ := ih h
      cases ht : listMax? t with
      | none => rw [ht] at hm; cases hm
      | some m' =>
        rw [ht] at hm
        cases hm
        exact ⟨max a m, by simp [listMax?, ht], le_trans hxm (le_max_right a m)⟩

/-- C8.  `add_stop_to_route` on an existing customer creates a stop with
`completed = false` and `sequence = maxSeqPy st d + 1`, where `maxSeqPy`
is the maximal existing sequence of the date (or the Python-`or` default
0 with no stops, making the sequence 1); the new sequence is strictly
greater than the sequence of every existing stop of that date, and the
stop is appended to the table. -/
theorem add_stop_sequence_spec (st : AppState) (cid d : Nat) (c : Customer)
    (hc : findCustomer st cid = some c) :
    ∃ st' stop, add_stop_to_route st cid d = .ok (st', stop) ∧
      stop.completed = false ∧
      stop.route_date = d ∧
      stop.sequence = maxSeqPy st d + 1 ∧
      (stopsOfDate st d = [] → stop.sequence = 1) ∧
      (∀ s ∈ st.stops, s.route_date = d → s.sequence < stop.sequence) ∧
      st'.stops = st.stops ++ [stop] := by
  have heq : add_stop_to_route st cid d =
      .ok ({ st with
              stops := st.stops ++
                [{ id := st.nextStopId, customer_id := c.id, route_date := d,
                   sequence := maxSeqPy st d + 1, completed := false }]
              nextStopId := st.nextStopId + 1 },
            { id := st.nextStopId, customer_id := c.id, route_date := d,
              sequence := maxSeqPy st d + 1, completed := false }) := by
    unfold add_stop_to_route
    rw [hc]
  refine ⟨_, _, heq, rfl, rfl, rfl, ?_, ?_, rfl⟩
  · intro hempty
    show (listMax? ((stopsOfDate st d).map (fun s => s.sequence))).getD 0 + 1 = 1
    rw [hempty]
    rfl
  · intro s hs hsd
    show s.sequence < maxSeqPy st d + 1
    have hmem : s.sequence ∈ (stopsOfDate st d).map (fun t => t.sequence) :=
      List.mem_map_of_mem _ (List.mem_filter.mpr ⟨hs, by simp [hsd]⟩)
    obtain ⟨m, hm, hxm⟩ := le_listMax? _ _ hmem
    have : maxSeqPy st d = m := by
      unfold maxSeqPy
      rw [hm]
      rfl
    omega

def stW8 : AppState :=
  { customers := [{ id := 1, name := "A" }]
    stops := [{ id := 1, customer_id := 1, route_date := 5, sequence := 4 },
              { id := 2, customer_id := 1, route_date := 6, sequence := 9 }]
    nextStopId := 3 }

/-- Witness for C8: appending to date 5 of `stW8` yields sequence 5,
strictly above the existing sequence 4 (the date-6 stop is ignored). -/
theorem add_stop_sequence_spec_witness :
    ∃ st' stop, add_stop_to_route stW8 1 5 = .ok (st', stop) ∧
      stop.completed = false ∧
      stop.route_date = 5 ∧
      stop.sequence = maxSeqPy stW8 5 + 1 ∧
      (stopsOfDate stW8 5 = [] → stop.sequence = 1) ∧
      (∀ s ∈ stW8.stops, s.route_date = 5 → s.sequence < stop.sequence) ∧
      st'.stops = stW8.stops ++ [stop] :=
  add_stop_sequence_spec stW8 1 5 { id := 1, name := "A" } rfl

/-! ### C9: complete and uncomplete a stop -/

/-- Looking the stop up again after an id-preserving in-place update of
the stop table. -/
theorem findStop_update (st : AppState) (sid : Nat) (f : RouteStop → RouteStop)
    (hf : ∀ s, (f s).id = s.id) (s : RouteStop) (hs : findStop st sid = some s)
    (rest : AppState) (hrest : rest.stops = st.stops.map (fun t => if t.id = sid then f t else t)) :
    findStop rest sid = some (f s) := by
  unfold findStop
  rw [hrest]
  exact find?_update_id RouteStop.id st.stops sid f hf s hs

/-- C9.  `complete_stop` sets the stop's `completed` to `true` and stamps
the owning customer's `last_visit` with today's date; `uncomplete_stop`
on the result sets `completed` back to `false` and leaves the customer
table (hence `last_visit` and every other customer field) untouched.
After the complete-then-uncomplete pair the stop is uncompleted — its
original value when it started uncompleted — while `last_visit` keeps
today's date instead of reverting. -/
theorem complete_uncomplete_spec (st : AppState) (sid today : Nat)
    (s : RouteStop) (c : Customer)
    (hs : findStop st sid = some s) (hc : findCustomer st s.customer_id = some c) :
    ∃ st₁ st₂,
      complete_stop st sid today = .ok st₁ ∧
      uncomplete_stop st₁ sid = .ok st₂ ∧
      findStop st₁ sid = some { s with completed := true } ∧
      findCustomer st₁ s.customer_id = some { c with last_visit := some today } ∧
      st₁.payments = st.payments ∧
      st₂.customers = st₁.customers ∧
      findStop st₂ sid = some { s with completed := false } ∧
      findCustomer st₂ s.customer_id = some { c with last_visit := some today } ∧
      (s.completed = false → ({ s with completed := false } : RouteStop) = s) := by
  have h1 : complete_stop st sid today =
      .ok (updateCustomer
            { st with stops := st.stops.map (fun t => if t.id = sid then { t with completed := true } else t) }
            s.customer_id (fun x => { x with last_visit := some today })) := by
    unfold complete_stop
    rw [hs]
    dsimp only
    rw [hc]
  set st₁ := updateCustomer
    { st with stops := st.stops.map (fun t => if t.id = sid then { t with completed := true } else t) }
    s.customer_id (fun x => { x with last_visit := some today }) with hst₁
  have hs₁ : findStop st₁ sid = some { s with completed := true } :=
    findStop_update st sid (fun t => { t with completed := true }) (fun _ => rfl) s hs st₁ rfl
  have hc₁ : findCustomer st₁ s.customer_id = some { c with last_visit := some today } :=
    findCustomer_updateCustomer
      { st with stops := st.stops.map (fun t => if t.id = sid then { t with completed := true } else t) }
      s.customer_id (fun x => { x with last_visit := some today }) (fun _ => rfl) c hc
  have h2 : uncomplete_stop st₁ sid =
      .ok { st₁ with
             stops := st₁.stops.map
               (fun t : RouteStop => if t.id = sid then { t with completed := false } else t) } := by
    unfold uncomplete_stop
    rw [hs₁]
  set st₂ : AppState := { st₁ with
    stops := st₁.stops.map
      (fun t : RouteStop => if t.id = sid then { t with completed := false } else t) } with hst₂
  have hs₂ : findStop st₂ sid = some { s with completed := false } := by
    have := findStop_update st₁ sid (fun t => { t with completed := false }) (fun _ => rfl)
      { s with completed := true } hs₁ st₂ rfl
    exact this
  refine ⟨st₁, st₂, h1, h2, hs₁, hc₁, rfl, rfl, hs₂, hc₁, ?_⟩
  intro hcmp
  cases s
  simp_all

def stW9 : AppState :=
  { customers := [{ id := 1, name := "A", last_visit := some 3 }]
    stops := [{ id := 1, customer_id := 1, route_date := 5, sequence := 1, completed := false }]
    nextStopId := 2 }

/-- Witness for C9 on the single stop of `stW9`, completed on day 8. -/
theorem complete_uncomplete_spec_witness :
    ∃ st₁ st₂,
      complete_stop stW9 1 8 = .ok st₁ ∧
      uncomplete_stop st₁ 1 = .ok st₂ ∧
      findStop st₁ 1 = some { id := 1, customer_id := 1, route_date := 5, sequence := 1, completed := true } ∧
      findCustomer st₁ 1 = some { id := 1, name := "A", last_visit := some 8 } ∧
      st₁.payments = stW9.payments ∧
      st₂.customers = st₁.customers ∧
      findStop st₂ 1 = some { id := 1, customer_id := 1, route_date := 5, sequence := 1, completed := false } ∧
      findCustomer st₂ 1 = some { id := 1, name := "A", last_visit := some 8 } ∧
      (({ id := 1, customer_id := 1, route_date := 5, sequence := 1, completed := false } : RouteStop).completed = false →
        ({ id := 1, customer_id := 1, route_date := 5, sequence := 1, completed := false } : RouteStop) =
          { id := 1, customer_id := 1, route_date := 5, sequence := 1, completed := false }) := by
  have h := complete_uncomplete_spec stW9 1 8
    { id := 1, customer_id := 1, route_date := 5, sequence := 1, completed := false }
    { id := 1, name := "A", last_visit := some 3 } rfl rfl
  obtain ⟨st₁, st₂, h1, h2, h3, h4, h5, h6, h7, h8, _h9⟩ := h
  exact ⟨st₁, st₂, h1, h2, h3, h4, h5, h6, h7, h8, fun _ => rfl⟩

/-! ### C2: the balance invariant -/

/-- A key-guarded update with a nonnegativity-preserving function keeps
every balance of the table nonnegative. -/
theorem balances_nonneg_mapUpdate (l : List Customer) (cid : Nat) (f : Customer → Customer)
    (hf : ∀ x, 0 ≤ x.balance → 0 ≤ (f x).balance)
    (h : ∀ c ∈ l, 0 ≤ c.balance) :
    ∀ c ∈ l.map (fun x => if x.id = cid then f x else x), 0 ≤ c.balance := by
  intro c hc
  rcases List.mem_map.mp hc with ⟨x, hx, hmap⟩
  subst hmap
  by_cases hid : x.id = cid
  · rw [if_pos hid]
    exact hf x (h x hx)
  · rw [if_neg hid]
    exact h x hx

/-- Appending one nonnegative payment keeps every amount nonnegative. -/
theorem payments_nonneg_append (l : List Payment) (p : Payment)
    (h : ∀ q ∈ l, 0 ≤ q.amount) (hp : 0 ≤ p.amount) :
    ∀ q ∈ l ++ [p], 0 ≤ q.amount := by
  intro q hq
  rcases List.mem_append.mp hq with h' | h'
  · exact h q h'
  · rw [List.mem_singleton.mp h']
    exact hp

/-- `optimize_route` never touches the customer or payment tables. -/
theorem optimizeRoute_frame (st : AppState) (d : Nat) :
    (optimizeRoute st d).customers = st.customers ∧
    (optimizeRoute st d).payments = st.payments := by
  unfold optimizeRoute
  dsimp only
  split
  · exact ⟨rfl, rfl⟩
  · exact ⟨rfl, rfl⟩

/-- Serving any single request of the core slice preserves both
nonnegativity invariants, provided any customer-page add-payment request
carries a nonnegative amount. -/
theorem applyOp_invariant (st : AppState) (op : Op)
    (h1 : BalancesNonneg st) (h2 : PaymentsNonneg st) (hop : OpNonneg op) :
    BalancesNonneg (applyOp st op) ∧ PaymentsNonneg (applyOp st op) := by
  cases op with
  | recordPay today cid a pd n =>
    unfold applyOp
    dsimp only
    cases hfc : findCustomer st cid with
    | none =>
      have herr : record_payment st today cid a pd n = .error .notFound := by
        unfold record_payment
        rw [hfc]
      rw [herr]
      exact ⟨h1, h2⟩
    | some c =>
      by_cases ha : a ≤ 0
      · rw [record_payment_nonpos_eq st today cid a pd n c hfc ha]
        exact ⟨h1, h2⟩
      · rw [record_payment_pos_eq st today cid a pd n c hfc (lt_of_not_le ha)]
        constructor
        · exact balances_nonneg_mapUpdate st.customers cid _
            (fun x _ => le_max_left 0 _) h1
        · exact payments_nonneg_append st.payments _ h2 (le_of_lt (lt_of_not_le ha))
  | addPay cid a pd n =>
    unfold applyOp
    dsimp only
    have hop' : (0 : ℚ) ≤ a := hop
    cases hfc : findCustomer st cid with
    | none =>
      have herr : customer_add_payment st cid a pd n = .error .notFound := by
        unfold customer_add_payment
        rw [hfc]
      rw [herr]
      exact ⟨h1, h2⟩
    | some c =>
      rw [customer_add_payment_eq st cid a pd n c hfc]
      constructor
      · exact balances_nonneg_mapUpdate st.customers cid _
          (fun x _ => le_max_left 0 _) h1
      · exact payments_nonneg_append st.payments _ h2 hop'
  | delPay cid pid =>
    unfold applyOp
    dsimp only
    cases hfc : findCustomer st cid with
    | none =>
      have herr : customer_delete_payment st cid pid = .error .notFound := by
        unfold customer_delete_payment
        rw [hfc]
      rw [herr]
      exact ⟨h1, h2⟩
    | some c =>
      cases hfp : findPayment st pid with
      | none =>
        have herr : customer_delete_payment st cid pid = .error .notFound := by
          unfold customer_delete_payment
          rw [hfc, hfp]
        rw [herr]
        exact ⟨h1, h2⟩
      | some p =>
        by_cases hb : p.customer_id = cid
        · rw [customer_delete_payment_eq st cid pid c p hfc hfp hb]
          have hpamt : 0 ≤ p.amount := h2 p (List.mem_of_find?_eq_some hfp)
          constructor
          · exact balances_nonneg_mapUpdate st.customers cid _
              (fun x hx => add_nonneg hx hpamt) h1
          · intro q hq
            have hq' : q ∈ st.payments.eraseP (fun r => r.id == pid) := hq
            exact h2 q (List.Sublist.mem hq' (List.eraseP_sublist st.payments))
        · have herr : customer_delete_payment st cid pid = .error .invalidInput := by
            unfold customer_delete_payment
            rw [hfc, hfp]
            dsimp only
            rw [if_pos hb]
          rw [herr]
          exact ⟨h1, h2⟩
  | updateCust cid nm ph ad ci no b? =>
    unfold applyOp
    dsimp only
    cases hfc : findCustomer st cid with
    | none =>
      have herr : customer_update st cid nm ph ad ci no b? = .error .notFound := by
        unfold customer_update
        rw [hfc]
      rw [herr]
      exact ⟨h1, h2⟩
    | some c =>
      have hmid : BalancesNonneg (updateCustomer st cid (fun c =>
          { c with
            name := pyOrKeep nm c.name
            phone := pyOrNone ph
            address := pyOrNone ad
            city := pyOrNone ci
            notes := pyOrNone no })) :=
        balances_nonneg_mapUpdate st.customers cid _ (fun x hx => hx) h1
      cases b? with
      | none =>
        have hok : customer_update st cid nm ph ad ci no none =
            .ok (updateCustomer st cid (fun c =>
              { c with
                name := pyOrKeep nm c.name
                phone := pyOrNone ph
                address := pyOrNone ad
                city := pyOrNone ci
                notes := pyOrNone no })) := by
          unfold customer_update
          rw [hfc]
        rw [hok]
        exact ⟨hmid, h2⟩
      | some b =>
        by_cases hbneg : b < 0
        · have herr : customer_update st cid nm ph ad ci no (some b) = .error .invalidInput := by
            unfold customer_update
            rw [hfc]
            dsimp only
            rw [if_pos hbneg]
          rw [herr]
          exact ⟨h1, h2⟩
        · have hok : customer_update st cid nm ph ad ci no (some b) =
              .ok (updateCustomer (updateCustomer st cid (fun c =>
                { c with
                  name := pyOrKeep nm c.name
                  phone := pyOrNone ph
                  address := pyOrNone ad
                  city := pyOrNone ci
                  notes := pyOrNone no })) cid (fun c => { c with balance := b })) := by
            unfold customer_update
            rw [hfc]
            dsimp only
            rw [if_neg hbneg]
          rw [hok]
          refine ⟨?_, h2⟩
          exact balances_nonneg_mapUpdate _ cid _ (fun x _ => le_of_not_lt hbneg) hmid
  | addStop cid d =>
    unfold applyOp
    dsimp only
    cases hfc : findCustomer st cid with
    | none =>
      have herr : add_stop_to_route st cid d = .error .notFound := by
        unfold add_stop_to_route
        rw [hfc]
      rw [herr]
      exact ⟨h1, h2⟩
    | some c =>
      have hok : add_stop_to_route st cid d =
          .ok ({ st with
                  stops := st.stops ++
                    [{ id := st.nextStopId, customer_id := c.id, route_date := d,
                       sequence := maxSeqPy st d + 1, completed := false }]
                  nextStopId := st.nextStopId + 1 },
                { id := st.nextStopId, customer_id := c.id, route_date := d,
                  sequence := maxSeqPy st d + 1, completed := false }) := by
        unfold add_stop_to_route
        rw [hfc]
      rw [hok]
      exact ⟨h1, h2⟩
  | rmStop sid =>
    unfold applyOp
    dsimp only
    cases hfs : findStop st sid with
    | none =>
      have herr : remove_stop_from_route st sid = .error .notFound := by
        unfold remove_stop_from_route
        rw [hfs]
      rw [herr]
      exact ⟨h1, h2⟩
    | some s =>
      have hok : remove_stop_from_route st sid =
          .ok { st with stops := st.stops.eraseP (fun t => t.id == sid) } := by
        unfold remove_stop_from_route
        rw [hfs]
      rw [hok]
      exact ⟨h1, h2⟩
  | clearDate d => exact ⟨h1, h2⟩
  | complete sid today =>
    unfold applyOp
    dsimp only
    cases hfs : findStop st sid with
    | none =>
      have herr : complete_stop st sid today = .error .notFound := by
        unfold complete_stop
        rw [hfs]
      rw [herr]
      exact ⟨h1, h2⟩
    | some s =>
      cases hfc : findCustomer st s.customer_id with
      | none =>
        have herr : complete_stop st sid today = .error .internal := by
          unfold complete_stop
          rw [hfs]
          dsimp only
          rw [hfc]
        rw [herr]
        exact ⟨h1, h2⟩
      | some c =>
        have hok : complete_stop st sid today =
            .ok (updateCustomer
              { st with
                stops := st.stops.map
                  (fun t : RouteStop => if t.id = sid then { t with completed := true } else t) }
              s.customer_id (fun x => { x with last_visit := some today })) := by
          unfold complete_stop
          rw [hfs]
          dsimp only
          rw [hfc]
        rw [hok]
        refine ⟨?_, h2⟩
        exact balances_nonneg_mapUpdate st.customers s.customer_id _ (fun x hx => hx) h1
  | uncomplete sid =>
    unfold applyOp
    dsimp only
    cases hfs : findStop st sid with
    | none =>
      have herr : uncomplete_stop st sid = .error .notFound := by
        unfold uncomplete_stop
        rw [hfs]
      rw [herr]
      exact ⟨h1, h2⟩
    | some s =>
      have hok : uncomplete_stop st sid =
          .ok { st with
                 stops := st.stops.map
                   (fun t : RouteStop => if t.id = sid then { t with completed := false } else t) } := by
        unfold uncomplete_stop
        rw [hfs]
      rw [hok]
      exact ⟨h1, h2⟩
  | optimize d =>
    obtain ⟨hcf, hpf⟩ := optimizeRoute_frame st d
    constructor
    · intro c hc
      have hc' : c ∈ (optimizeRoute st d).customers := hc
      rw [hcf] at hc'
      exact h1 c hc'
    · intro p hp
      have hp' : p ∈ (optimizeRoute st d).payments := hp
      rw [hpf] at hp'
      exact h2 p hp'

/-- C2 (amended).  Starting from any state whose stored balances and
stored payment amounts are nonnegative, serving any sequence of core
operations in which every customer-page add-payment request has a
nonnegative amount keeps every customer balance (and every stored
payment amount) nonnegative.  The restriction is necessary: see the
counterexample, where deleting a negative-amount payment recorded
through the unvalidated customer-page entry point drives a balance
negative. -/
theorem balance_invariant_spec (st : AppState) (ops : List Op)
    (h1 : BalancesNonneg st) (h2 : PaymentsNonneg st)
    (hops : ∀ op ∈ ops, OpNonneg op) :
    BalancesNonneg (applyOps st ops) ∧ PaymentsNonneg (applyOps st ops) := by
  induction ops generalizing st with
  | nil => exact ⟨h1, h2⟩
  | cons op rest ih =>
    have hstep := applyOp_invariant st op h1 h2 (hops op (by simp))
    exact ih (applyOp st op) hstep.1 hstep.2 (fun o ho => hops o (by simp [ho]))

def stX2 : AppState := { customers := [{ id := 1, name := "A", balance := 0 }] }

def opsX2 : List Op := [.addPay 1 (-50) 0 none, .addPay 1 50 0 none, .delPay 1 1]

/-- Counterexample to C2 as stated.  From a state with one customer at
balance 0, the reachable sequence "customer-page add-payment of -50,
customer-page add-payment of 50, delete the first payment" leaves the
customer's balance at -50: the delete-payment reversal of the
negative-amount payment drives the balance negative, so the invariant
does not hold for every reachable state. -/
theorem balance_invariant_counterexample : ¬ BalancesNonneg (applyOps stX2 opsX2) := by
  intro h
  have hbal : (findCustomer (applyOps stX2 opsX2) 1).map (fun c => c.balance) =
      some (max 0 (max 0 ((0 : ℚ) - -50) - 50) + -50) := rfl
  cases hfc : findCustomer (applyOps stX2 opsX2) 1 with
  | none =>
    rw [hfc] at hbal
    cases hbal
  | some c =>
    have hcmem : c ∈ (applyOps stX2 opsX2).customers := List.mem_of_find?_eq_some hfc
    have hge := h c hcmem
    rw [hfc] at hbal
    simp only [Option.map_some', Option.some.injEq] at hbal
    rw [hbal] at hge
    norm_num at hge

/-- Witness for the amended C2: the spec §8 scenario (record 30 then 200
on a customer at balance 100, then delete the second payment) keeps all
balances nonnegative. -/
theorem balance_invariant_spec_witness :
    BalancesNonneg (applyOps stW1
      [.recordPay 7 1 30 7 none, .recordPay 7 1 200 7 none, .delPay 1 2]) :=
  (balance_invariant_spec stW1
    [.recordPay 7 1 30 7 none, .recordPay 7 1 200 7 none, .delPay 1 2]
    (by intro c hc; rw [List.mem_singleton.mp hc]; norm_num)
    (by intro p hp; cases hp)
    (by
      intro op hop
      rcases List.mem_cons.mp hop with rfl | hop
      · trivial
      rcases List.mem_cons.mp hop with rfl | hop
      · trivial
      rcases List.mem_cons.mp hop with rfl | hop
      · trivial
      cases hop)).1

/-! ### C5: receipt-number allocation -/

/-- A string is a SQL-LIKE prefix of itself followed by anything. -/
theorem likePrefix_append (p t : String) : likePrefix p (p ++ t) = true := by
  unfold likePrefix
  rw [String.data_append]
  exact List.isPrefixOf_iff_prefix.mpr (List.prefix_append _ _)

/-- A freshly minted receipt of day `today` matches that day's LIKE
pattern. -/
theorem matchesDay_mkReceipt (today n : Nat) (p : Payment)
    (hp : p.receipt_number = some (mkReceipt today n)) :
    matchesDay today p = true := by
  unfold matchesDay
  rw [hp]
  exact likePrefix_append _ _

/-- Inversion of a successful `record_payment`: the created payment's
receipt number is the day prefix with suffix `countToday + 1`, and the
day's receipt count afterwards has grown by exactly one. -/
theorem record_payment_receipt (st : AppState) (today cid : Nat) (a : ℚ)
    (pd : Nat) (n : Option String) (st' : AppState) (pay : Payment)
    (h : record_payment st today cid a pd n = .ok (st', pay)) :
    pay.receipt_number = some (mkReceipt today (countToday st today + 1)) ∧
    countToday st' today = countToday st today + 1 := by
  unfold record_payment at h
  cases hfc : findCustomer st cid with
  | none =>
    rw [hfc] at h
    exact Except.noConfusion h
  | some c =>
    rw [hfc] at h
    dsimp only at h
    by_cases ha : a ≤ 0
    · rw [if_pos ha] at h
      exact Except.noConfusion h
    · rw [if_neg ha] at h
      simp only [Except.ok.injEq, Prod.mk.injEq] at h
      obtain ⟨hst', hpay⟩ := h
      subst hst'
      subst hpay
      refine ⟨rfl, ?_⟩
      have hmatch : matchesDay today
          ({ id := st.nextPaymentId, customer_id := c.id, amount := a, payment_date := pd,
             notes := n, receipt_number := some (mkReceipt today (countToday st today + 1)),
             previous_balance := some c.balance } : Payment) = true :=
        matchesDay_mkReceipt today _ _ rfl
      show ((st.payments ++
          [({ id := st.nextPaymentId, customer_id := c.id, amount := a, payment_date := pd,
              notes := n, receipt_number := some (mkReceipt today (countToday st today + 1)),
              previous_balance := some c.balance } : Payment)]).filter (matchesDay today)).length =
        (st.payments.filter (matchesDay today)).length + 1
      rw [List.filter_append, List.length_append]
      simp [hmatch]

/-- Over a same-day run of record-payment requests, the receipt numbers
of the successfully created payments are exactly the day prefix with the
consecutive suffixes `c₀+1, c₀+2, ...` starting from the initial day
count `c₀`: strictly increasing with no gaps. -/
theorem runRecords_receipts (today : Nat) (calls : List RecCall) (st : AppState) :
    (runRecords today st calls).2.map (fun p => p.receipt_number) =
      (List.range (runRecords today st calls).2.length).map
        (fun k => some (mkReceipt today (countToday st today + k + 1))) := by
  induction calls generalizing st with
  | nil => rfl
  | cons c rest ih =>
    unfold runRecords
    cases hrec : record_payment st today c.cid c.amount c.pdate c.notes with
    | error e =>
      dsimp only
      exact ih st
    | ok pr =>
      cases pr with
      | mk st' pay =>
        dsimp only
        obtain ⟨hr, hcount⟩ :=
          record_payment_receipt st today c.cid c.amount c.pdate c.notes st' pay hrec
        rw [List.map_cons, List.length_cons, List.range_succ_eq_map, List.map_cons,
          List.map_map]
        congr 1
        rw [ih st', hcount]
        refine List.map_congr_left ?_
        intro k _
        show some (mkReceipt today (countToday st today + 1 + k + 1)) =
          some (mkReceipt today (countToday st today + (k + 1) + 1))
        congr 3
        omega

/-- C5 (amended).  First part: every successful `record_payment` call
allocates the receipt number `RCP-<today>-<suffix>` whose suffix is the
current count of receipts carrying today's prefix plus one, zero-padded
to at least four digits by `pad4`, and raises that count by one.  Second
part: under single-threaded execution, a same-day sequence of
record-payment calls (with no interleaved payment deletion — see the
counterexample for why deletions void the guarantee) allocates the
consecutive suffixes `c₀+1, c₀+2, ...`: strictly increasing with no
gaps. -/
theorem receipt_numbers_spec :
    (∀ (st : AppState) (today cid : Nat) (a : ℚ) (pd : Nat) (n : Option String)
        (st' : AppState) (pay : Payment),
      record_payment st today cid a pd n = .ok (st', pay) →
      pay.receipt_number = some (mkReceipt today (countToday st today + 1)) ∧
      countToday st' today = countToday st today + 1) ∧
    (∀ (today : Nat) (st : AppState) (calls : List RecCall),
      (runRecords today st calls).2.map (fun p => p.receipt_number) =
        (List.range (runRecords today st calls).2.length).map
          (fun k => some (mkReceipt today (countToday st today + k + 1)))) :=
  ⟨fun st today cid a pd n st' pay h =>
      record_payment_receipt st today cid a pd n st' pay h,
    fun today st calls => runRecords_receipts today calls st⟩

/-- Witness for C5: on `stW1` (no prior receipts) a record call allocates
suffix 1, and a two-call run allocates suffixes 1 and 2. -/
theorem receipt_numbers_spec_witness :
    (∃ st' pay, record_payment stW1 7 1 30 7 none = .ok (st', pay) ∧
      pay.receipt_number = some (mkReceipt 7 (countToday stW1 7 + 1)) ∧
      countToday st' 7 = countToday stW1 7 + 1) ∧
    ((runRecords 7 stW1 [⟨1, 30, 7, none⟩, ⟨1, 40, 7, none⟩]).2.map
        (fun p => p.receipt_number) =
      (List.range (runRecords 7 stW1 [⟨1, 30, 7, none⟩, ⟨1, 40, 7, none⟩]).2.length).map
        (fun k => some (mkReceipt 7 (countToday stW1 7 + k + 1)))) := by
  constructor
  · have hok := record_payment_pos_eq stW1 7 1 30 7 none
      { id := 1, name := "ABC Convenience", balance := 100 } rfl (by norm_num)
    exact ⟨_, _, hok, receipt_numbers_spec.1 stW1 7 1 30 7 none _ _ hok⟩
  · exact receipt_numbers_spec.2 7 stW1 _

def stX5 : AppState := { customers := [{ id := 1, name := "ABC", balance := 100 }] }

/-- Counterexample to C5 as stated.  Under single-threaded execution on
one day (day 7): record 30, record 200 (allocating suffixes 0001 and
0002), delete the second payment, then record 10.  The recount makes the
fourth call allocate suffix 0002 again — equal to, not strictly greater
than, the previously allocated suffix 0002 — so the suffixes of receipts
allocated on the same calendar date are not strictly increasing once a
deletion intervenes. -/
theorem receipt_numbers_counterexample :
    (record_payment (applyOp stX5 (.recordPay 7 1 30 7 none)) 7 1 200 7 none).toOption.map
        (fun pr => pr.2.receipt_number) = some (some "RCP-7-0002") ∧
    (record_payment
        (applyOp (applyOp (applyOp stX5
          (.recordPay 7 1 30 7 none)) (.recordPay 7 1 200 7 none)) (.delPay 1 2))
        7 1 10 7 none).toOption.map
        (fun pr => pr.2.receipt_number) = some (some "RCP-7-0002") :=
  ⟨rfl, rfl⟩

/-! ### Infrastructure for the optimizer: city grouping -/

/-- The well-formedness of the `city_groups` dict: nonempty buckets whose
members all carry the bucket's city. -/
def GroupsOK (cs : List Customer) (gs : List (String × List RouteStop)) : Prop :=
  ∀ p ∈ gs, p.2 ≠ [] ∧ ∀ s ∈ p.2, cityOfStop cs s = p.1

theorem addToGroups_keys (gs : List (String × List RouteStop)) (k : String) (s : RouteStop) :
    (addToGroups gs k s).map (fun p => p.1) =
      if k ∈ gs.map (fun p => p.1) then gs.map (fun p => p.1)
      else gs.map (fun p => p.1) ++ [k] := by
  induction gs with
  | nil => simp [addToGroups]
  | cons p rest ih =>
    cases p with
    | mk k' b =>
      by_cases hk : k' = k
      · subst hk
        simp [addToGroups]
      · unfold addToGroups
        rw [if_neg hk]
        have hne : ¬ k = k' := fun h => hk h.symm
        simp only [List.map_cons, List.mem_cons, hne, false_or]
        rw [ih]
        by_cases hmem : k ∈ rest.map (fun p => p.1)
        · rw [if_pos hmem, if_pos hmem]
        · rw [if_neg hmem, if_neg hmem]
          rfl

theorem addToGroups_keys_nodup (gs : List (String × List RouteStop)) (k : String) (s : RouteStop)
    (h : (gs.map (fun p => p.1)).Nodup) : ((addToGroups gs k s).map (fun p => p.1)).Nodup := by
  rw [addToGroups_keys]
  by_cases hmem : k ∈ gs.map (fun p => p.1)
  · rw [if_pos hmem]
    exact h
  · rw [if_neg hmem]
    refine List.Nodup.append h (List.nodup_singleton k) ?_
    intro a ha hb
    rw [List.mem_singleton.mp hb] at ha
    exact hmem ha

theorem addToGroups_ok (cs : List Customer) (gs : List (String × List RouteStop))
    (k : String) (s : RouteStop) (hks : cityOfStop cs s = k)
    (h : GroupsOK cs gs) : GroupsOK cs (addToGroups gs k s) := by
  induction gs with
  | nil =>
    intro p hp
    rw [List.mem_singleton.mp hp]
    exact ⟨by simp, fun t ht => by rw [List.mem_singleton.mp ht]; exact hks⟩
  | cons q rest ih =>
    cases q with
    | mk k' b =>
      unfold addToGroups
      by_cases hk : k' = k
      · rw [if_pos hk]
        intro p hp
        rcases List.mem_cons.mp hp with hphead | hptail
        · subst hphead
          obtain ⟨hb, hcity⟩ := h (k', b) (List.mem_cons_self _ _)
          refine ⟨by simp, ?_⟩
          intro t ht
          rcases List.mem_append.mp ht with h' | h'
          · exact hcity t h'
          · rw [List.mem_singleton.mp h', hks, hk]
        · exact h p (List.mem_cons_of_mem _ hptail)
      · rw [if_neg hk]
        intro p hp
        rcases List.mem_cons.mp hp with hphead | hptail
        · subst hphead
          exact h (k', b) (List.mem_cons_self _ _)
        · exact ih (fun q hq => h q (List.mem_cons_of_mem _ hq)) p hptail

theorem groupStops_aux_keys_nodup (cs : List Customer) (l : List RouteStop)
    (gs : List (String × List RouteStop)) (h : (gs.map (fun p => p.1)).Nodup) :
    ((l.foldl (fun gs s => addToGroups gs (cityOfStop cs s) s) gs).map (fun p => p.1)).Nodup := by
  induction l generalizing gs with
  | nil => exact h
  | cons s t ih => exact ih _ (addToGroups_keys_nodup gs _ s h)

/-- The keys of the `city_groups` dict are pairwise distinct. -/
theorem groupStops_keys_nodup (cs : List Customer) (l : List RouteStop) :
    ((groupStops cs l).map (fun p => p.1)).Nodup :=
  groupStops_aux_keys_nodup cs l [] (by simp)

theorem groupStops_aux_ok (cs : List Customer) (l : List RouteStop)
    (gs : List (String × List RouteStop)) (h : GroupsOK cs gs) :
    GroupsOK cs (l.foldl (fun gs s => addToGroups gs (cityOfStop cs s) s) gs) := by
  induction l generalizing gs with
  | nil => exact h
  | cons s t ih => exact ih _ (addToGroups_ok cs gs _ s rfl h)

/-- Every bucket of the `city_groups` dict is nonempty and its members
all carry the bucket's city. -/
theorem groupStops_ok (cs : List Customer) (l : List RouteStop) :
    GroupsOK cs (groupStops cs l) :=
  groupStops_aux_ok cs l [] (by intro p hp; cases hp)

theorem addToGroups_join_perm (gs : List (String × List RouteStop)) (k : String) (s : RouteStop) :
    ((addToGroups gs k s).map (fun p => p.2)).flatten.Perm
      (((gs.map (fun p => p.2)).flatten) ++ [s]) := by
  induction gs with
  | nil => simp [addToGroups]
  | cons q rest ih =>
    cases q with
    | mk k' b =>
      unfold addToGroups
      by_cases hk : k' = k
      · rw [if_pos hk]
        simp only [List.map_cons, List.flatten_cons, List.append_assoc]
        exact (List.Perm.refl b).append (List.perm_append_comm)
      · rw [if_neg hk]
        simp only [List.map_cons, List.flatten_cons, List.append_assoc]
        exact (List.Perm.refl b).append ih

theorem groupStops_aux_join_perm (cs : List Customer) (l : List RouteStop)
    (gs : List (String × List RouteStop)) :
    ((l.foldl (fun gs s => addToGroups gs (cityOfStop cs s) s) gs).map (fun p => p.2)).flatten.Perm
      (((gs.map (fun p => p.2)).flatten) ++ l) := by
  induction l generalizing gs with
  | nil => simp
  | cons s t ih =>
    refine (ih (addToGroups gs (cityOfStop cs s) s)).trans ?_
    have h1 := (addToGroups_join_perm gs (cityOfStop cs s) s).append_right t
    refine h1.trans ?_
    rw [List.append_assoc]
    exact List.Perm.refl _

/-- The buckets of the `city_groups` dict hold exactly the processed
stops (as a multiset). -/
theorem groupStops_join_perm (cs : List Customer) (l : List RouteStop) :
    ((groupStops cs l).map (fun p => p.2)).flatten.Perm l := by
  have := groupStops_aux_join_perm cs l []
  simpa using this

/-- A permutation of the outer list of lists permutes the flattening. -/
theorem flatten_perm_of_perm {α : Type} {L₁ L₂ : List (List α)} (h : L₁.Perm L₂) :
    L₁.flatten.Perm L₂.flatten := by
  induction h with
  | nil => exact List.Perm.refl _
  | cons x _ ih => simpa using ih.append_left x
  | swap x y l =>
    simp only [List.flatten_cons]
    rw [← List.append_assoc, ← List.append_assoc]
    exact List.perm_append_comm.append_right l.flatten
  | trans _ _ ih₁ ih₂ => exact ih₁.trans ih₂

/-- Pointwise permutations of mapped blocks permute the flattening. -/
theorem flatten_map_perm {α β : Type} (L : List α) (f g : α → List β)
    (h : ∀ x ∈ L, (f x).Perm (g x)) :
    ((L.map f).flatten).Perm ((L.map g).flatten) := by
  induction L with
  | nil => exact List.Perm.refl _
  | cons a t ih =>
    simp only [List.map_cons, List.flatten_cons]
    exact (h a (List.mem_cons_self _ _)).append (ih (fun x hx => h x (List.mem_cons_of_mem _ hx)))

/-! ### Infrastructure for the optimizer: sequence numbering -/

theorem length_assignSeqFrom (k : Nat) (l : List RouteStop) :
    (assignSeqFrom k l).length = l.length := by
  induction l generalizing k with
  | nil => rfl
  | cons s t ih => simp [assignSeqFrom, ih]

theorem assignSeqFrom_append (k : Nat) (a b : List RouteStop) :
    assignSeqFrom k (a ++ b) = assignSeqFrom k a ++ assignSeqFrom (k + a.length) b := by
  induction a generalizing k with
  | nil => simp [assignSeqFrom]
  | cons s t ih =>
    have harith : k + 1 + t.length = k + (t.length + 1) := by omega
    show setSeq s (k : Int) :: assignSeqFrom (k + 1) (t ++ b) =
      (setSeq s (k : Int) :: assignSeqFrom (k + 1) t) ++ assignSeqFrom (k + (t.length + 1)) b
    rw [List.cons_append, ih (k + 1), harith]

theorem assignSeqFrom_map_strip (k : Nat) (l : List RouteStop) :
    (assignSeqFrom k l).map stripSeq = l.map stripSeq := by
  induction l generalizing k with
  | nil => rfl
  | cons s t ih => simp only [assignSeqFrom, List.map_cons, ih]; rfl

theorem assignSeqFrom_map_seq (k : Nat) (l : List RouteStop) :
    (assignSeqFrom k l).map (fun s => s.sequence) =
      (List.range l.length).map (fun i => ((k + i : Nat) : Int)) := by
  induction l generalizing k with
  | nil => rfl
  | cons s t ih =>
    simp only [assignSeqFrom, List.map_cons, List.length_cons, List.range_succ_eq_map,
      List.map_map]
    rw [ih (k + 1)]
    simp only [List.cons.injEq]
    refine ⟨rfl, ?_⟩
    refine List.map_congr_left ?_
    intro i _
    show ((k + 1 + i : Nat) : Int) = ((k + (i + 1) : Nat) : Int)
    congr 1
    omega

theorem mem_assignSeqFrom (k : Nat) (b : List RouteStop) (t : RouteStop)
    (ht : t ∈ assignSeqFrom k b) : ∃ t₀ ∈ b, ∃ m : Nat, t = setSeq t₀ (m : Int) := by
  induction b generalizing k with
  | nil => cases ht
  | cons s rest ih =>
    rcases List.mem_cons.mp ht with h | h
    · exact ⟨s, List.mem_cons_self _ _, k, h⟩
    · obtain ⟨t₀, ht₀, m, hm⟩ := ih (k + 1) h
      exact ⟨t₀, List.mem_cons_of_mem _ ht₀, m, hm⟩

/-- The sort keys never read the sequence field. -/
theorem cityOfStop_setSeq (cs : List Customer) (s : RouteStop) (n : Int) :
    cityOfStop cs (setSeq s n) = cityOfStop cs s := rfl

theorem nameOfStop_setSeq (cs : List Customer) (s : RouteStop) (n : Int) :
    nameOfStop cs (setSeq s n) = nameOfStop cs s := rfl

theorem assignSeqFrom_map_name (cs : List Customer) (k : Nat) (b : List RouteStop) :
    (assignSeqFrom k b).map (nameOfStop cs) = b.map (nameOfStop cs) := by
  induction b generalizing k with
  | nil => rfl
  | cons s t ih => simp only [assignSeqFrom, List.map_cons, ih]; rfl

/-- Renumber a list of keyed buckets consecutively, each bucket
continuing where the previous one stopped. -/
def numberGroups (k : Nat) : List (String × List RouteStop) → List (String × List RouteStop)
  | [] => []
  | (c, b) :: gs => (c, assignSeqFrom k b) :: numberGroups (k + b.length) gs

theorem numberGroups_keys (k : Nat) (gs : List (String × List RouteStop)) :
    (numberGroups k gs).map (fun p => p.1) = gs.map (fun p => p.1) := by
  induction gs generalizing k with
  | nil => rfl
  | cons q rest ih =>
    cases q with
    | mk c b => simp [numberGroups, ih]

theorem numberGroups_lengths (k : Nat) (gs : List (String × List RouteStop)) :
    (numberGroups k gs).map (fun p => p.2.length) = gs.map (fun p => p.2.length) := by
  induction gs generalizing k with
  | nil => rfl
  | cons q rest ih =>
    cases q with
    | mk c b => simp [numberGroups, ih, length_assignSeqFrom]

theorem numberGroups_join (k : Nat) (gs : List (String × List RouteStop)) :
    ((numberGroups k gs).map (fun p => p.2)).flatten =
      assignSeqFrom k ((gs.map (fun p => p.2)).flatten) := by
  induction gs generalizing k with
  | nil => rfl
  | cons q rest ih =>
    cases q with
    | mk c b =>
      simp only [numberGroups, List.map_cons, List.flatten_cons, assignSeqFrom_append, ih]

theorem mem_numberGroups (k : Nat) (gs : List (String × List RouteStop))
    (p : String × List RouteStop) (hp : p ∈ numberGroups k gs) :
    ∃ q ∈ gs, ∃ j, p = (q.1, assignSeqFrom j q.2) := by
  induction gs generalizing k with
  | nil => cases hp
  | cons q rest ih =>
    cases q with
    | mk c b =>
      rcases List.mem_cons.mp hp with h | h
      · exact ⟨(c, b), List.mem_cons_self _ _, k, h⟩
      · obtain ⟨q', hq', j, hj⟩ := ih (k + b.length) h
        exact ⟨q', List.mem_cons_of_mem _ hq', j, hj⟩

/-! ### C6: the optimized route order -/

/-- C6.  With at most one stop `optimize_route` changes nothing.  With
two or more stops the optimized order is a concatenation of city blocks:
block cities are pairwise distinct (so stops sharing a city are
contiguous), every member of a block carries the block's city (missing
or empty city mapped to "Unknown"), block sizes are in descending order,
the customer names inside each block are in ascending order, the
resulting stops are the input stops (up to the reassigned sequence
field), and the assigned sequence values are exactly 1..N in the
resulting order. -/
theorem optimize_route_grouping (cs : List Customer) (l : List RouteStop) :
    (l.length ≤ 1 → optimizeStops cs l = l) ∧
    (2 ≤ l.length →
      ∃ gs : List (String × List RouteStop),
        optimizeStops cs l = (gs.map (fun p => p.2)).flatten ∧
        (gs.map (fun p => p.1)).Nodup ∧
        (∀ p ∈ gs, p.2 ≠ [] ∧ (∀ s ∈ p.2, cityOfStop cs s = p.1) ∧
          (p.2.map (nameOfStop cs)).Sorted (· ≤ ·)) ∧
        (gs.map (fun p => p.2.length)).Sorted (fun a b => b ≤ a) ∧
        ((optimizeStops cs l).map stripSeq).Perm (l.map stripSeq) ∧
        (optimizeStops cs l).map (fun s => s.sequence) =
          (List.range l.length).map (fun i : Nat => (i : Int) + 1)) := by
  constructor
  · intro h1
    unfold optimizeStops
    rw [if_pos h1]
  · intro h2
    have hnle : ¬ l.length ≤ 1 := by omega
    set G := groupStops cs l with hG
    set sortedG := List.insertionSort sizeGE G with hsortedG
    set bs := sortedG.map (fun p => (p.1, List.insertionSort (nameLE cs) p.2)) with hbs
    have hperm : sortedG.Perm G := List.perm_insertionSort sizeGE G
    have hopt : optimizeStops cs l =
        assignSeqFrom 1 ((sortedG.map (fun p => List.insertionSort (nameLE cs) p.2)).flatten) := by
      unfold optimizeStops
      rw [if_neg hnle]
    have hchain : ((sortedG.map (fun p => List.insertionSort (nameLE cs) p.2)).flatten).Perm l :=
      ((flatten_map_perm sortedG _ (fun p => p.2)
          (fun p _ => List.perm_insertionSort (nameLE cs) p.2)).trans
        (flatten_perm_of_perm (hperm.map (fun p => p.2)))).trans
        (groupStops_join_perm cs l)
    refine ⟨numberGroups 1 bs, ?_, ?_, ?_, ?_, ?_, ?_⟩
    · rw [hopt, numberGroups_join]
      congr 1
      rw [hbs, List.map_map]
      rfl
    · rw [numberGroups_keys, hbs, List.map_map]
      have hcomp : (sortedG.map
          ((fun p => p.1) ∘ (fun p => (p.1, List.insertionSort (nameLE cs) p.2)))) =
          sortedG.map (fun p => p.1) := rfl
      rw [hcomp]
      exact ((hperm.map (fun p => p.1)).nodup_iff).mpr (groupStops_keys_nodup cs l)
    · intro p hp
      obtain ⟨q, hq, j, hpj⟩ := mem_numberGroups 1 bs p hp
      subst hpj
      rw [hbs] at hq
      obtain ⟨q₀, hq₀, hq₀eq⟩ := List.mem_map.mp hq
      have hq₀G : q₀ ∈ G := hperm.mem_iff.mp hq₀
      obtain ⟨hne, hcity⟩ := groupStops_ok cs l q₀ hq₀G
      subst hq₀eq
      dsimp only
      refine ⟨?_, ?_, ?_⟩
      · intro hnil
        have hlen0 : (assignSeqFrom j (List.insertionSort (nameLE cs) q₀.2)).length = 0 := by
          rw [hnil]
          rfl
        rw [length_assignSeqFrom, (List.perm_insertionSort (nameLE cs) q₀.2).length_eq] at hlen0
        exact hne (List.length_eq_zero.mp hlen0)
      · intro s hs
        obtain ⟨t₀, ht₀, m, hm⟩ := mem_assignSeqFrom j _ s hs
        subst hm
        rw [cityOfStop_setSeq]
        exact hcity t₀ ((List.perm_insertionSort (nameLE cs) q₀.2).mem_iff.mp ht₀)
      · rw [assignSeqFrom_map_name]
        exact List.pairwise_map.mpr (List.sorted_insertionSort (nameLE cs) q₀.2)
    · rw [numberGroups_lengths, hbs, List.map_map]
      have hcomp : (sortedG.map
          ((fun p => p.2.length) ∘ (fun p => (p.1, List.insertionSort (nameLE cs) p.2)))) =
          sortedG.map (fun p => (List.insertionSort (nameLE cs) p.2).length) := rfl
      rw [hcomp]
      have heq : sortedG.map (fun p => (List.insertionSort (nameLE cs) p.2).length) =
          sortedG.map (fun p => p.2.length) :=
        List.map_congr_left (fun p _ => (List.perm_insertionSort (nameLE cs) p.2).length_eq)
      rw [heq]
      exact List.pairwise_map.mpr (List.sorted_insertionSort sizeGE G)
    · rw [hopt, assignSeqFrom_map_strip]
      exact hchain.map stripSeq
    · rw [hopt, assignSeqFrom_map_seq, hchain.length_eq]
      refine List.map_congr_left ?_
      intro i _
      show ((1 + i : Nat) : Int) = (i : Int) + 1
      push_cast
      ring

def csW6 : List Customer :=
  [{ id := 1, name := "ABC Convenience", city := some "Springfield" },
   { id := 2, name := "Joe's Market", city := some "Shelbyville" },
   { id := 3, name := "Quick Stop", city := some "Springfield" },
   { id := 4, name := "Main Street Deli", city := some "Springfield" }]

def stopsW6 : List RouteStop :=
  [{ id := 1, customer_id := 3, route_date := 5, sequence := 1 },
   { id := 2, customer_id := 2, route_date := 5, sequence := 2 },
   { id := 3, customer_id := 1, route_date := 5, sequence := 3 },
   { id := 4, customer_id := 4, route_date := 5, sequence := 4 }]

/-- Witness for C6: a singleton route is untouched, and the spec §8
scenario (three Springfield stops, one Shelbyville stop) satisfies the
full grouping conclusion. -/
theorem optimize_route_grouping_witness :
    (optimizeStops csW6 [{ id := 1, customer_id := 3, route_date := 5, sequence := 9 }] =
      [{ id := 1, customer_id := 3, route_date := 5, sequence := 9 }]) ∧
    (∃ gs : List (String × List RouteStop),
      optimizeStops csW6 stopsW6 = (gs.map (fun p => p.2)).flatten ∧
      (gs.map (fun p => p.1)).Nodup ∧
      (∀ p ∈ gs, p.2 ≠ [] ∧ (∀ s ∈ p.2, cityOfStop csW6 s = p.1) ∧
        (p.2.map (nameOfStop csW6)).Sorted (· ≤ ·)) ∧
      (gs.map (fun p => p.2.length)).Sorted (fun a b => b ≤ a) ∧
      ((optimizeStops csW6 stopsW6).map stripSeq).Perm (stopsW6.map stripSeq) ∧
      (optimizeStops csW6 stopsW6).map (fun s => s.sequence) =
        (List.range stopsW6.length).map (fun i : Nat => (i : Int) + 1)) :=
  ⟨(optimize_route_grouping csW6
      [{ id := 1, customer_id := 3, route_date := 5, sequence := 9 }]).1 (by decide),
   (optimize_route_grouping csW6 stopsW6).2 (by decide)⟩

/-! ### C7: idempotence of the optimizer -/

/-- Stops equal up to their sequence field have the same city key. -/
theorem cityOfStop_stripEq (cs : List Customer) {s t : RouteStop}
    (h : stripSeq s = stripSeq t) : cityOfStop cs s = cityOfStop cs t :=
  calc cityOfStop cs s = cityOfStop cs (stripSeq s) := rfl
    _ = cityOfStop cs (stripSeq t) := by rw [h]
    _ = cityOfStop cs t := rfl

/-- Stops equal up to their sequence field have the same name key. -/
theorem nameOfStop_stripEq (cs : List Customer) {s t : RouteStop}
    (h : stripSeq s = stripSeq t) : nameOfStop cs s = nameOfStop cs t :=
  calc nameOfStop cs s = nameOfStop cs (stripSeq s) := rfl
    _ = nameOfStop cs (stripSeq t) := by rw [h]
    _ = nameOfStop cs t := rfl

/-- Stops equal up to their sequence field lie on the same route date. -/
theorem route_date_stripEq {s t : RouteStop} (h : stripSeq s = stripSeq t) :
    s.route_date = t.route_date :=
  calc s.route_date = (stripSeq s).route_date := rfl
    _ = (stripSeq t).route_date := by rw [h]
    _ = t.route_date := rfl

/-- An ordered insertion commutes with a map that respects the two
orders. -/
theorem orderedInsert_map {α β : Type} (r : α → α → Prop) (r' : β → β → Prop)
    [DecidableRel r] [DecidableRel r'] (ψ : α → β)
    (h : ∀ a b, r' (ψ a) (ψ b) ↔ r a b) (a : α) (l : List α) :
    List.orderedInsert r' (ψ a) (l.map ψ) = (List.orderedInsert r a l).map ψ := by
  induction l with
  | nil => rfl
  | cons b t ih =>
    simp only [List.map_cons, List.orderedInsert]
    by_cases hab : r a b
    · rw [if_pos ((h a b).mpr hab), if_pos hab]
      rfl
    · rw [if_neg (fun hc => hab ((h a b).mp hc)), if_neg hab, List.map_cons, ih]

/-- A stable insertion sort commutes with a map that respects the two
orders. -/
theorem insertionSort_map {α β : Type} (r : α → α → Prop) (r' : β → β → Prop)
    [DecidableRel r] [DecidableRel r'] (ψ : α → β)
    (h : ∀ a b, r' (ψ a) (ψ b) ↔ r a b) (l : List α) :
    List.insertionSort r' (l.map ψ) = (List.insertionSort r l).map ψ := by
  induction l with
  | nil => rfl
  | cons a t ih =>
    simp only [List.map_cons, List.insertionSort]
    rw [ih]
    exact orderedInsert_map r r' ψ h a _

/-- Bucket insertion commutes with mapping a function over the stops of
every bucket. -/
theorem addToGroups_map (F : RouteStop → RouteStop)
    (gs : List (String × List RouteStop)) (k : String) (s : RouteStop) :
    addToGroups (gs.map (fun p => (p.1, p.2.map F))) k (F s) =
      (addToGroups gs k s).map (fun p => (p.1, p.2.map F)) := by
  induction gs with
  | nil => rfl
  | cons q rest ih =>
    cases q with
    | mk k' b =>
      simp only [List.map_cons, addToGroups]
      by_cases hk : k' = k
      · rw [if_pos hk, if_pos hk]
        simp
      · rw [if_neg hk, if_neg hk, List.map_cons, ih]

/-- City grouping commutes with a city-preserving map over the stops. -/
theorem groupStops_map (cs : List Customer) (F : RouteStop → RouteStop)
    (hcity : ∀ s, cityOfStop cs (F s) = cityOfStop cs s) (l : List RouteStop) :
    groupStops cs (l.map F) = (groupStops cs l).map (fun p => (p.1, p.2.map F)) := by
  suffices h : ∀ gs, (l.map F).foldl (fun gs s => addToGroups gs (cityOfStop cs s) s)
      (gs.map (fun p => (p.1, p.2.map F))) =
      (l.foldl (fun gs s => addToGroups gs (cityOfStop cs s) s) gs).map
        (fun p => (p.1, p.2.map F)) by
    have h0 := h []
    simpa [groupStops] using h0
  induction l with
  | nil => intro gs; rfl
  | cons s t ih =>
    intro gs
    simp only [List.map_cons, List.foldl_cons]
    rw [hcity s, addToGroups_map]
    exact ih _

/-- Renumbering erases any prior sequence-only modification. -/
theorem assignSeqFrom_map_stripInvariant (F : RouteStop → RouteStop)
    (hF : ∀ s, stripSeq (F s) = stripSeq s) (k : Nat) (l : List RouteStop) :
    assignSeqFrom k (l.map F) = assignSeqFrom k l := by
  induction l generalizing k with
  | nil => rfl
  | cons s t ih =>
    simp only [List.map_cons, assignSeqFrom, ih]
    have h1 : setSeq (F s) (k : Int) = setSeq (stripSeq (F s)) (k : Int) := rfl
    rw [h1, hF s]
    rfl

/-- The optimizer is oblivious to the sequence fields of its input: a
map that only rewrites sequence numbers does not change its output. -/
theorem optimizeStops_map (cs : List Customer) (F : RouteStop → RouteStop)
    (hF : ∀ s, stripSeq (F s) = stripSeq s) (l : List RouteStop) (h2 : 2 ≤ l.length) :
    optimizeStops cs (l.map F) = optimizeStops cs l := by
  have hcity : ∀ s, cityOfStop cs (F s) = cityOfStop cs s :=
    fun s => cityOfStop_stripEq cs (hF s)
  have hname : ∀ s, nameOfStop cs (F s) = nameOfStop cs s :=
    fun s => nameOfStop_stripEq cs (hF s)
  have hnle : ¬ l.length ≤ 1 := by omega
  have hnle' : ¬ (l.map F).length ≤ 1 := by
    rw [List.length_map]
    exact hnle
  have hsize : ∀ p q : String × List RouteStop,
      sizeGE (p.1, p.2.map F) (q.1, q.2.map F) ↔ sizeGE p q := by
    intro p q
    show (q.2.map F).length ≤ (p.2.map F).length ↔ q.2.length ≤ p.2.length
    rw [List.length_map, List.length_map]
  have hnm : ∀ a b, nameLE cs (F a) (F b) ↔ nameLE cs a b := by
    intro a b
    unfold nameLE
    rw [hname a, hname b]
  have e1 : optimizeStops cs (l.map F) =
      assignSeqFrom 1 (((List.insertionSort sizeGE (groupStops cs (l.map F))).map
        (fun p => List.insertionSort (nameLE cs) p.2)).flatten) := by
    unfold optimizeStops
    rw [if_neg hnle']
  have e2 : optimizeStops cs l =
      assignSeqFrom 1 (((List.insertionSort sizeGE (groupStops cs l)).map
        (fun p => List.insertionSort (nameLE cs) p.2)).flatten) := by
    unfold optimizeStops
    rw [if_neg hnle]
  rw [e1, e2, groupStops_map cs F hcity l,
    insertionSort_map sizeGE sizeGE (fun p => (p.1, p.2.map F)) hsize, List.map_map]
  have hinner : ((fun p => List.insertionSort (nameLE cs) p.2) ∘
      (fun p : String × List RouteStop => (p.1, p.2.map F))) =
      (fun p : String × List RouteStop => List.insertionSort (nameLE cs) (p.2.map F)) := rfl
  rw [hinner]
  have hsortmap : (List.insertionSort sizeGE (groupStops cs l)).map
      (fun p => List.insertionSort (nameLE cs) (p.2.map F)) =
      (List.insertionSort sizeGE (groupStops cs l)).map
        (fun p => (List.insertionSort (nameLE cs) p.2).map F) :=
    List.map_congr_left
      (fun p _ => insertionSort_map (nameLE cs) (nameLE cs) F hnm p.2)
  have hcomp2 : (fun p : String × List RouteStop =>
      (List.insertionSort (nameLE cs) p.2).map F) =
      (List.map F ∘ fun p : String × List RouteStop =>
        List.insertionSort (nameLE cs) p.2) := rfl
  rw [hsortmap, hcomp2, ← List.map_map, ← List.map_flatten,
    assignSeqFrom_map_stripInvariant F hF]

/-- Writing back a sequence changes nothing but the sequence field. -/
theorem stripSeq_writeBackSeq (d : Nat) (opt : List RouteStop) (s : RouteStop) :
    stripSeq (writeBackSeq d opt s) = stripSeq s := by
  unfold writeBackSeq
  by_cases hd : s.route_date = d
  · rw [if_pos hd]
    cases hfind : opt.find? (fun t => t.id == s.id) with
    | none => rfl
    | some t => rfl
  · rw [if_neg hd]

/-- Writing the same optimized sequences back twice is the same as
writing them back once. -/
theorem writeBackSeq_writeBackSeq (d : Nat) (opt : List RouteStop) (s : RouteStop) :
    writeBackSeq d opt (writeBackSeq d opt s) = writeBackSeq d opt s := by
  by_cases hd : s.route_date = d
  · cases hfind : opt.find? (fun t => t.id == s.id) with
    | none =>
      have h1 : writeBackSeq d opt s = s := by
        unfold writeBackSeq
        rw [if_pos hd, hfind]
      rw [h1]
      exact h1
    | some t =>
      have h1 : writeBackSeq d opt s = { s with sequence := t.sequence } := by
        unfold writeBackSeq
        rw [if_pos hd, hfind]
      rw [h1]
      unfold writeBackSeq
      dsimp only
      rw [if_pos hd, hfind]
  · have h1 : writeBackSeq d opt s = s := by
      unfold writeBackSeq
      rw [if_neg hd]
    rw [h1]
    exact h1

/-- C7.  `optimize_route` is idempotent: on every state and every route
date, applying it twice in a row produces exactly the same state — the
same stops in the same stored order with the same sequence assignment —
as applying it once.  (The second run refetches the date's rows, which
differ from the first run's input only in their sequence fields, and the
grouping and sorting keys never read the sequence field.) -/
theorem optimize_route_idempotent (st : AppState) (d : Nat) :
    optimizeRoute (optimizeRoute st d) d = optimizeRoute st d := by
  by_cases hlen : (stopsOfDate st d).length ≤ 1
  · have e : optimizeRoute st d = st := by
      unfold optimizeRoute
      rw [if_pos hlen]
    rw [e, e]
  · set wb := writeBackSeq d (optimizeStops st.customers (stopsOfDate st d)) with hwb
    have e1 : optimizeRoute st d = { st with stops := st.stops.map wb } := by
      unfold optimizeRoute
      rw [if_neg hlen]
    have hfetch : stopsOfDate { st with stops := st.stops.map wb } d =
        (stopsOfDate st d).map wb := by
      unfold stopsOfDate
      dsimp only
      rw [List.filter_map]
      congr 1
      refine List.filter_congr ?_
      intro s _
      show ((wb s).route_date == d) = (s.route_date == d)
      rw [route_date_stripEq (stripSeq_writeBackSeq d _ s)]
    have hlen2 : ¬ (stopsOfDate { st with stops := st.stops.map wb } d).length ≤ 1 := by
      rw [hfetch, List.length_map]
      exact hlen
    have hopt2 : optimizeStops st.customers
        (stopsOfDate { st with stops := st.stops.map wb } d) =
        optimizeStops st.customers (stopsOfDate st d) := by
      rw [hfetch]
      exact optimizeStops_map st.customers wb (stripSeq_writeBackSeq d _) _ (by omega)
    have e2 : optimizeRoute { st with stops := st.stops.map wb } d =
        { st with stops := (st.stops.map wb).map wb } := by
      unfold optimizeRoute
      rw [if_neg hlen2, hopt2]
    rw [e1, e2]
    congr 1
    rw [List.map_map]
    refine List.map_congr_left ?_
    intro s _
    show wb (wb s) = wb s
    exact writeBackSeq_writeBackSeq d _ s

end Candy
